import Mathlib

/-!
Verification of the rabbit-budget categorization engine.

This file gives a shallow embedding of the categorization engine of the
repository (src/transaction_processor.py together with the parts of
src/storage.py it calls) and proves or refutes the frozen claims about it.

Modelling conventions:
* Python strings are `List Char`; `Char.toUpper` / `Char.toLower` model
  Python's `str.upper` / `str.lower` on the basic-latin range the data uses.
* Python's whitespace class (the regex `\s` and `str.strip`) is the
  predicate `isPySpace`, listing the Unicode whitespace scalars Python uses.
* A pandas cell is modelled by its parsed content: a missing/NaN description
  is `Option.none`, and the amount cell is carried as the result of
  `pd.to_numeric(…, errors=coerce)`, i.e. `Option ℚ` (`none` = NaN).
* The SQL store of storage.py is a record of profiles, categories and rules
  kept in insertion (primary-key) order; queries that sort (`ORDER BY`)
  are modelled with an insertion sort over the binary collation of the key.
* The external classifier call is an oracle `Option (List Char)`:
  `some r` is a response with text `r`, `none` is a raised transport error.
* Python exceptions are `Except PyError`; `PyError.notFound` is
  storage.NotFoundError and `PyError.valueError` is ValueError.
-/

/-- Python whitespace scalars: the characters matched by the regex class
`\s` and stripped by `str.strip` (ASCII whitespace, the C1 controls
\x1c-\x1f, NEL, NBSP and the Unicode space separators). -/
def isPySpace (c : Char) : Bool :=
  decide (c.toNat = 32 ∨ c.toNat = 9 ∨ c.toNat = 10 ∨ c.toNat = 11 ∨ c.toNat = 12 ∨
    c.toNat = 13 ∨ c.toNat = 28 ∨ c.toNat = 29 ∨ c.toNat = 30 ∨ c.toNat = 31 ∨
    c.toNat = 133 ∨ c.toNat = 160 ∨ c.toNat = 5760 ∨
    (8192 ≤ c.toNat ∧ c.toNat ≤ 8202) ∨ c.toNat = 8232 ∨ c.toNat = 8233 ∨
    c.toNat = 8239 ∨ c.toNat = 8287 ∨ c.toNat = 12288)

/-- `description.upper()` of transaction_processor.py, character-wise. -/
def upperL (l : List Char) : List Char := l.map Char.toUpper

/-- `s.lower()`, character-wise. -/
def lowerL (l : List Char) : List Char := l.map Char.toLower

/-- Python's substring test `pat in hay` on strings. -/
def containsSub (hay pat : List Char) : Bool :=
  if pat.isPrefixOf hay then true else
    match hay with
    | [] => false
    | _ :: t => containsSub t pat

/-- Leading-whitespace strip, one side of `str.strip`. -/
def dropSpaces (l : List Char) : List Char := l.dropWhile isPySpace

/-- Python `str.strip()`: drop `isPySpace` characters from both ends. -/
def stripL (l : List Char) : List Char :=
  ((l.dropWhile isPySpace).reverse.dropWhile isPySpace).reverse

/-- `re.sub(r'X{4,}', '', desc)` (transaction_processor.py line 13):
scan with a counter of pending `'X'` characters; a maximal run of four or
more is dropped, shorter runs are kept verbatim. -/
def removeXAux : Nat → List Char → List Char
  | n, [] => if 4 ≤ n then [] else List.replicate n 'X'
  | n, c :: rest =>
    if c = 'X' then removeXAux (n + 1) rest
    else (if 4 ≤ n then [] else List.replicate n 'X') ++ c :: removeXAux 0 rest

/-- `re.sub(r'X{4,}', '', desc)`. -/
def removeXRuns (l : List Char) : List Char := removeXAux 0 l

/-- `re.sub(r'null', '', desc, flags=re.IGNORECASE)` (line 14): delete each
non-overlapping case-insensitive occurrence of `null`, scanning left to
right and resuming after a deleted match. -/
def removeNull : List Char → List Char
  | a :: b :: c :: d :: rest =>
    if [a.toLower, b.toLower, c.toLower, d.toLower] = ['n', 'u', 'l', 'l']
    then removeNull rest
    else a :: removeNull (b :: c :: d :: rest)
  | l => l

/-- `re.sub(r'\d+', '', desc)` (line 15): remove decimal digits. -/
def removeDigits (l : List Char) : List Char := l.filter (fun c => !c.isDigit)

/-- `re.sub(r'\s+', ' ', desc)` (line 16): collapse each whitespace run to
one space.  The flag records that the current run's space was emitted. -/
def collapseAux : Bool → List Char → List Char
  | _, [] => []
  | b, c :: rest =>
    if isPySpace c then
      if b then collapseAux true rest else ' ' :: collapseAux true rest
    else c :: collapseAux false rest

/-- `re.sub(r'\s+', ' ', desc)`. -/
def collapseWs (l : List Char) : List Char := collapseAux false l

/-- `desc.replace(chr(160), ' ')` (line 17): non-breaking space to space. -/
def replaceNbsp (l : List Char) : List Char :=
  l.map (fun c => if c.toNat = 160 then ' ' else c)

/-- `clean_description` (transaction_processor.py lines 10-18).  A null
description (`pd.isnull`) cleans to the empty string; otherwise the five
regex/replace passes run in source order. -/
def clean_description : Option (List Char) → List Char
  | none => []
  | some desc =>
    replaceNbsp ((stripL (collapseWs (removeDigits (removeNull (removeXRuns desc))))))

/-! ## The store (src/storage.py, the slice the engine consumes) -/

/-- The two exception classes the engine can see: `storage.NotFoundError`
and Python's `ValueError`. -/
inductive PyError where
  | notFound
  | valueError
deriving DecidableEq

/-- One row of the `rules` table: profile, keyword, category_name,
listed in primary-key (insertion) order inside `Store.rules`. -/
structure StoreRule where
  profile : List Char
  keyword : List Char
  category : List Char
deriving DecidableEq

/-- One row of the `categories` table. -/
structure StoreCategory where
  profile : List Char
  name : List Char
  budget : ℚ
deriving DecidableEq

/-- The database state the engine reads and writes: profile names, then the
category and rule tables, each list in insertion (primary-key) order. -/
structure Store where
  profiles : List (List Char)
  cats : List StoreCategory
  rules : List StoreRule
deriving DecidableEq

/-- Case-insensitive name filter `func.lower(Profile.name) == name.lower()`
used by `_require_profile` and `profile_exists`. -/
def profMatches (stored query : List Char) : Bool :=
  lowerL stored = lowerL query

/-- `storage.profile_exists` (storage.py lines 462-469). -/
def profile_exists (s : Store) (profile_name : List Char) : Bool :=
  s.profiles.any (fun q => profMatches q profile_name)

/-- Lexicographic comparison of the code points, the `BINARY` collation
SQLite applies to `ORDER BY` on a text column. -/
def keyLe : List Char → List Char → Bool
  | [], _ => true
  | _ :: _, [] => false
  | a :: as, b :: bs =>
    if a.toNat < b.toNat then true
    else if b.toNat < a.toNat then false
    else keyLe as bs

/-- Insertion step of the `ORDER BY key ASC` model. -/
def insertByKey (key : α → List Char) (x : α) : List α → List α
  | [] => [x]
  | y :: ys => if keyLe (key x) (key y) then x :: y :: ys else y :: insertByKey key x ys

/-- `ORDER BY key ASC` as an insertion sort (stable; keys are unique in the
queries modelled here). -/
def sortByKey (key : α → List Char) : List α → List α
  | [] => []
  | x :: xs => insertByKey key x (sortByKey key xs)

/-- `storage.list_rules` (storage.py lines 353-362): require the profile,
then return the profile's rules as a keyword → category mapping whose
iteration order is `ORDER BY keyword ASC`. -/
def list_rules (s : Store) (profile_name : List Char) :
    Except PyError (List (List Char × List Char)) :=
  if profile_exists s profile_name then
    .ok ((sortByKey (fun r => r.keyword)
      (s.rules.filter (fun r => profMatches r.profile profile_name))).map
        (fun r => (r.keyword, r.category)))
  else .error .notFound

/-- `storage.list_categories` (storage.py lines 276-285): require the
profile, then the profile's categories in `ORDER BY name ASC` order. -/
def list_categories (s : Store) (profile_name : List Char) :
    Except PyError (List (List Char × ℚ)) :=
  if profile_exists s profile_name then
    .ok ((sortByKey (fun c => c.name)
      (s.cats.filter (fun c => profMatches c.profile profile_name))).map
        (fun c => (c.name, c.budget)))
  else .error .notFound

/-- The row condition of `upsert_rule`'s `one_or_none` query: same profile
(case-insensitive) and exactly this normalized keyword. -/
def ruleFor (p kw : List Char) (r : StoreRule) : Bool :=
  profMatches r.profile p && r.keyword = kw

/-- `upsert_rule`'s category normalization: strip, and replace an empty
result by the sentinel `Uncategorized`. -/
def normCategory (category_name : List Char) : List Char :=
  if stripL category_name = [] then "Uncategorized".toList else stripL category_name

/-- `storage.upsert_rule` (storage.py lines 437-459): normalize the keyword
(`strip().upper()`, ValueError when empty) and the category (via
`normCategory`), require the profile, then update the matching rule row in
place or append a fresh row. -/
def upsert_rule (s : Store) (profile_name keyword category_name : List Char) :
    Except PyError Store :=
  if upperL (stripL keyword) = [] then .error .valueError
  else if profile_exists s profile_name then
    if s.rules.any (ruleFor profile_name (upperL (stripL keyword))) then
      .ok { s with rules := s.rules.map (fun r =>
        if ruleFor profile_name (upperL (stripL keyword)) r
        then { r with category := normCategory category_name } else r) }
    else
      .ok { s with rules := s.rules ++
        [⟨profile_name, upperL (stripL keyword), normCategory category_name⟩] }
  else .error .notFound

/-- `storage.get_profile_settings` (storage.py lines 153-160): requires the
profile; the returned dict holds only `is_private` and `has_password`, so
the engine's `settings.get(...)` lookups for `custom_columns`,
`description_column` and `amount_column` always yield `None` and the
default column names apply.  The two boolean fields are irrelevant to the
engine, so the payload is collapsed to `Unit`. -/
def get_profile_settings (s : Store) (profile_name : List Char) : Except PyError Unit :=
  if profile_exists s profile_name then .ok () else .error .notFound

/-! ## The engine (src/transaction_processor.py) -/

/-- One cleaned transaction row, `(Description, Amount)`. -/
structure CleanRow where
  description : List Char
  amount : ℚ
deriving DecidableEq

/-- A parsed input CSV.  `cols` is the header; per row, `descCell` is the
cell under the description column (`none` = null cell) and `amountCell` is
`pd.to_numeric(cell, errors=coerce)` of the cell under the amount column
(`none` = NaN, i.e. empty or unparseable). -/
structure CsvRow where
  descCell : Option (List Char)
  amountCell : Option ℚ
deriving DecidableEq

/-- A parsed input CSV file. -/
structure CsvFile where
  cols : List (List Char)
  rows : List CsvRow
deriving DecidableEq

/-- True when the row's parsed amount is a negative number
(`pd.to_numeric(...) < 0`; NaN compares false). -/
def isNegRow (r : CsvRow) : Bool :=
  match r.amountCell with
  | some q => decide (q < 0)
  | none => false

/-- `clean_citi_csv` (transaction_processor.py lines 20-44).  Loads the
profile settings (which never supply custom column names, see
`get_profile_settings`), demands the default `Description`/`Debit`
columns, then filters on the parsed amounts: if any is negative, keep
exactly the negative rows, else keep the rows that parsed; each kept row
gets the cleaned description and `abs` of its amount. -/
def clean_citi_csv (store : Store) (input_file : CsvFile) (profile : List Char) :
    Except PyError (List CleanRow) :=
  match get_profile_settings store profile with
  | .error e => .error e
  | .ok _ =>
    if ("Description".toList ∈ input_file.cols ∧ "Debit".toList ∈ input_file.cols) then
      let has_negatives := input_file.rows.any isNegRow
      let kept := if has_negatives
        then input_file.rows.filter isNegRow
        else input_file.rows.filter (fun r => r.amountCell.isSome)
      .ok (kept.map (fun r =>
        ⟨clean_description r.descCell, |r.amountCell.getD 0|⟩))
    else .error .valueError

/-- `query_chatgpt` (lines 50-63): the transport call is the oracle; a
raised error (`none`) is caught and becomes the literal string
`Uncategorized`. -/
def query_chatgpt (gpt : Option (List Char)) : List Char :=
  match gpt with
  | some response => response
  | none => "Uncategorized".toList

/-- The rule loop of `categorize_fallback` (lines 68-70): first rule, in
the mapping's iteration order, whose keyword is a substring of the
uppercased description. -/
def ruleLoop (category_rules : List (List Char × List Char)) (descU : List Char) :
    Option (List Char) :=
  match category_rules with
  | [] => none
  | (keyword, category) :: rest =>
    if containsSub descU keyword then some category else ruleLoop rest descU

/-- The response-parsing loop of `categorize_fallback` (lines 81-83):
first configured category whose lowercased name occurs in the lowercased
parsed line. -/
def catLoop (categories : List (List Char × ℚ)) (cleanedLower : List Char) :
    Option (List Char) :=
  match categories with
  | [] => none
  | (name, _) :: rest =>
    if containsSub cleanedLower (lowerL name) then some name else catLoop rest cleanedLower

/-- `gpt_response.strip().split(chr(10))[0]` (line 80). -/
def firstLineOf (l : List Char) : List Char := l.takeWhile (fun c => c ≠ '\n')

/-- `categorize_fallback` (lines 67-84): rule loop first; otherwise query
the classifier, take the first line of the stripped response, and return
the first configured category appearing in it, defaulting to
`Uncategorized`. -/
def categorize_fallback (gpt : Option (List Char)) (description : List Char)
    (categories : List (List Char × ℚ)) (category_rules : List (List Char × List Char)) :
    List Char :=
  match ruleLoop category_rules (upperL description) with
  | some category => category
  | none =>
    let gpt_response := query_chatgpt gpt
    let cleaned := firstLineOf (stripL gpt_response)
    match catLoop categories (lowerL cleaned) with
    | some name => name
    | none => "Uncategorized".toList

/-- Python dict assignment `d[k] = v`: overwrite in place when the key is
present, else append at the end of the iteration order. -/
def dictInsert (d : List (List Char × List Char)) (k v : List Char) :
    List (List Char × List Char) :=
  if d.any (fun kv => kv.1 = k) then
    d.map (fun kv => if kv.1 = k then (k, v) else kv)
  else d ++ [(k, v)]

/-- `load_categories` + `get_category_tuples` (lines 114-122): category
`(name, budget)` tuples, `NotFoundError` swallowed to `[]`. -/
def get_category_tuples (store : Store) (profile : List Char) : List (List Char × ℚ) :=
  match list_categories store profile with
  | .ok cs => cs
  | .error _ => []

/-- `load_category_rules` (lines 124-128): the rule mapping,
`NotFoundError` swallowed to `{}`. -/
def load_category_rules (store : Store) (profile : List Char) :
    List (List Char × List Char) :=
  match list_rules store profile with
  | .ok rs => rs
  | .error _ => []

/-- The in-flight state of the categorization loop: the persistent store,
the in-memory rule snapshot, and the categories assigned so far. -/
structure RunState where
  store : Store
  rules : List (List Char × List Char)
  out : List (List Char)
deriving DecidableEq

/-- One iteration of the loop body (lines 91-107) on the row's description
and that row's classifier oracle: categorize, and on `Uncategorized`
record the gap in the snapshot and upsert it into the store, swallowing
`NotFoundError` but letting any `ValueError` escape. -/
def assignStep (profile : List Char) (categories : List (List Char × ℚ))
    (st : RunState) (row : List Char × Option (List Char)) : Except PyError RunState :=
  if categorize_fallback row.2 row.1 categories st.rules = "Uncategorized".toList then
    match upsert_rule st.store profile (upperL row.1) ("NEEDS CATEGORY".toList) with
    | .ok store2 =>
      .ok ⟨store2, dictInsert st.rules (upperL row.1) ("NEEDS CATEGORY".toList),
        st.out ++ [categorize_fallback row.2 row.1 categories st.rules]⟩
    | .error .notFound =>
      .ok ⟨st.store, dictInsert st.rules (upperL row.1) ("NEEDS CATEGORY".toList),
        st.out ++ [categorize_fallback row.2 row.1 categories st.rules]⟩
    | .error .valueError => .error .valueError
  else .ok ⟨st.store, st.rules, st.out ++ [categorize_fallback row.2 row.1 categories st.rules]⟩

/-- The loop of lines 91-107 over all rows, threading the state. -/
def runRows (profile : List Char) (categories : List (List Char × ℚ)) :
    RunState → List (List Char × Option (List Char)) → Except PyError RunState
  | st, [] => .ok st
  | st, row :: rest =>
    match assignStep profile categories st row with
    | .ok st2 => runRows profile categories st2 rest
    | .error e => .error e

/-- `assign_categories_to_dataframe` (lines 86-111).  `gpts i` is the
classifier oracle the `i`-th row would use.  Loads the category tuples and
the rule snapshot once, runs the loop, and writes the `Category` column
next to the input rows. -/
def assign_categories_to_dataframe (gpts : Nat → Option (List Char))
    (df : List CleanRow) (profile : List Char) (store : Store) :
    Except PyError (List (List Char × ℚ × List Char) × Store) :=
  let categories := get_category_tuples store profile
  let category_rules := load_category_rules store profile
  match runRows profile categories ⟨store, category_rules, []⟩
      (df.enum.map (fun p => (p.2.description, gpts p.1))) with
  | .ok st => .ok ((df.zip st.out).map (fun p => (p.1.description, p.1.amount, p.2)), st.store)
  | .error e => .error e

/-- `process_transactions` (lines 130-137): require the profile, clean,
categorize; the returned row list is the content of the output CSV, which
is written only by the final `to_csv` (so an error means no output file). -/
def process_transactions (gpts : Nat → Option (List Char)) (store : Store)
    (input_file : CsvFile) (profile : List Char) :
    Except PyError (List (List Char × ℚ × List Char) × Store) :=
  if profile_exists store profile then
    match clean_citi_csv store input_file profile with
    | .error e => .error e
    | .ok cleaned_df => assign_categories_to_dataframe gpts cleaned_df profile store
  else .error .notFound

/-! ## Spec-side reading and concrete fixtures -/

deriving instance DecidableEq for Except

/-- The spec's reading of the response parsing, stated independently of the
loop: the first configured category name occurring case-insensitively in
the first line of the stripped response text, else Uncategorized. -/
def parseFirst (resp : List Char) (categories : List (List Char × ℚ)) : List Char :=
  match categories.find?
      (fun c => containsSub (lowerL (firstLineOf (stripL resp))) (lowerL c.1)) with
  | some c => c.1
  | none => "Uncategorized".toList

/-- A store holding just the profile `default`: no categories, no rules. -/
def storeJustDefault : Store := ⟨["default".toList], [], []⟩

/-- A store whose rules were inserted in the order `B`, `AB` — insertion
order and keyword order disagree. -/
def storeInsertedBA : Store := ⟨["default".toList], [],
  [⟨"default".toList, "B".toList, "Cat1".toList⟩,
   ⟨"default".toList, "AB".toList, "Cat2".toList⟩]⟩

/-- A store with one category `Food` and one rule `A -> Food`. -/
def storeGapDemo : Store := ⟨["default".toList],
  [⟨"default".toList, "Food".toList, 0⟩],
  [⟨"default".toList, "A".toList, "Food".toList⟩]⟩

/-- The store of the worked scenario: categories `Rent` and `Shopping`,
one rule `AMZN -> Shopping`. -/
def storeScenario : Store := ⟨["default".toList],
  [⟨"default".toList, "Rent".toList, 1900⟩, ⟨"default".toList, "Shopping".toList, 0⟩],
  [⟨"default".toList, "AMZN".toList, "Shopping".toList⟩]⟩

/-- The input file of the worked scenario: two debit rows, amounts
`-42.50` and `-1900.00`. -/
def fileScenario : CsvFile := ⟨["Description".toList, "Debit".toList],
  [⟨some ("AMZN MKTP US*XXXX1234".toList), some (-(mkRat 85 2))⟩,
   ⟨some ("RENT PAYMENT".toList), some (-1900)⟩]⟩

/-- An input file whose single row has a null description cell and a debit
of `-5` (so it cleans to the empty description). -/
def fileNullDesc : CsvFile := ⟨["Description".toList, "Debit".toList],
  [⟨none, some (-5)⟩]⟩

/-- A store holding the profile `default` and the single rule `X -> C`. -/
def storeRuleX : Store := ⟨["default".toList], [],
  [⟨"default".toList, "X".toList, "C".toList⟩]⟩

/-! ## General lemmas about the loops and the sort -/

theorem ruleLoop_eq_find (rules : List (List Char × List Char)) (d : List Char) :
    ruleLoop rules d = (rules.find? (fun kv => containsSub d kv.1)).map Prod.snd := by
  induction rules with
  | nil => rfl
  | cons kv rest ih =>
    obtain ⟨k, c⟩ := kv
    rw [ruleLoop, List.find?]
    cases h : containsSub d k with
    | true => simp
    | false => simpa using ih

theorem catLoop_eq_find (categories : List (List Char × ℚ)) (x : List Char) :
    catLoop categories x
      = (categories.find? (fun c => containsSub x (lowerL c.1))).map Prod.fst := by
  induction categories with
  | nil => rfl
  | cons c rest ih =>
    obtain ⟨name, budget⟩ := c
    rw [catLoop, List.find?]
    cases h : containsSub x (lowerL name) with
    | true => simp
    | false => simpa using ih

theorem keyLe_total (a : List Char) : ∀ b : List Char, keyLe a b = true ∨ keyLe b a = true := by
  induction a with
  | nil => intro b; left; rfl
  | cons x xs ih =>
    intro b
    cases b with
    | nil => right; rfl
    | cons y ys =>
      simp only [keyLe]
      rcases Nat.lt_trichotomy x.toNat y.toNat with h | h | h
      · left; rw [if_pos h]
      · have h1 : ¬ x.toNat < y.toNat := by omega
        have h2 : ¬ y.toNat < x.toNat := by omega
        rw [if_neg h1, if_neg h2, if_neg h2, if_neg h1]
        exact ih ys
      · right; rw [if_pos h]

theorem keyLe_trans (a : List Char) :
    ∀ b c : List Char, keyLe a b = true → keyLe b c = true → keyLe a c = true := by
  induction a with
  | nil => intro b c _ _; rfl
  | cons x xs ih =>
    intro b c hab hbc
    cases b with
    | nil => simp [keyLe] at hab
    | cons y ys =>
      cases c with
      | nil => simp [keyLe] at hbc
      | cons z zs =>
        simp only [keyLe] at hab hbc ⊢
        rcases Nat.lt_trichotomy x.toNat y.toNat with h1 | h1 | h1
        · rcases Nat.lt_trichotomy y.toNat z.toNat with h2 | h2 | h2
          · rw [if_pos (by omega)]
          · rw [if_pos (by omega)]
          · rw [if_neg (by omega), if_pos (by omega)] at hbc
            exact absurd hbc (by simp)
        · rcases Nat.lt_trichotomy y.toNat z.toNat with h2 | h2 | h2
          · rw [if_pos (by omega)]
          · rw [if_neg (by omega), if_neg (by omega)] at hab hbc ⊢
            exact ih ys zs hab hbc
          · rw [if_neg (by omega), if_pos (by omega)] at hbc
            exact absurd hbc (by simp)
        · rw [if_neg (by omega), if_pos (by omega)] at hab
          exact absurd hab (by simp)

theorem insertByKey_perm (key : α → List Char) (x : α) (l : List α) :
    List.Perm (insertByKey key x l) (x :: l) := by
  induction l with
  | nil => exact List.Perm.refl _
  | cons y ys ih =>
    rw [insertByKey]
    by_cases h : keyLe (key x) (key y)
    · rw [if_pos h]
    · rw [if_neg h]
      exact (ih.cons y).trans (List.Perm.swap x y ys)

theorem mem_insertByKey {key : α → List Char} {x z : α} {l : List α} :
    z ∈ insertByKey key x l ↔ z = x ∨ z ∈ l := by
  rw [(insertByKey_perm key x l).mem_iff, List.mem_cons]

theorem pairwise_insertByKey (key : α → List Char) (x : α) (l : List α)
    (h : l.Pairwise (fun a b => keyLe (key a) (key b) = true)) :
    (insertByKey key x l).Pairwise (fun a b => keyLe (key a) (key b) = true) := by
  induction l with
  | nil => simp [insertByKey]
  | cons y ys ih =>
    rcases List.pairwise_cons.mp h with ⟨hy, hys⟩
    rw [insertByKey]
    by_cases hxy : keyLe (key x) (key y) = true
    · rw [if_pos hxy]
      refine List.Pairwise.cons ?_ h
      intro z hz
      rcases List.mem_cons.mp hz with rfl | hz
      · exact hxy
      · exact keyLe_trans _ _ _ hxy (hy z hz)
    · rw [if_neg hxy]
      refine List.Pairwise.cons ?_ (ih hys)
      intro z hz
      rcases mem_insertByKey.mp hz with rfl | hz
      · rcases keyLe_total (key z) (key y) with h1 | h1
        · exact absurd h1 hxy
        · exact h1
      · exact hy z hz

theorem pairwise_sortByKey (key : α → List Char) (l : List α) :
    (sortByKey key l).Pairwise (fun a b => keyLe (key a) (key b) = true) := by
  induction l with
  | nil => simp [sortByKey]
  | cons x xs ih => exact pairwise_insertByKey key x _ ih

theorem sortByKey_perm (key : α → List Char) (l : List α) :
    List.Perm (sortByKey key l) l := by
  induction l with
  | nil => exact List.Perm.refl _
  | cons x xs ih => exact (insertByKey_perm key x _).trans (ih.cons x)

/-! ## C3: rule matcher semantics and iteration order -/

/-- C3 (counterexample): with rules inserted in the order `B -> Cat1`,
`AB -> Cat2`, the persisted/insertion order is `[B, AB]`, but the mapping
`list_rules` hands to the matcher iterates in keyword-ascending order
`[AB, B]`; on description `ab` the matcher therefore returns `Cat2`,
while first-match over the insertion order would return `Cat1`.  So the
matcher does not follow the store's persisted/insertion order. -/
theorem C3_counterexample :
    list_rules storeInsertedBA ("default".toList)
      = .ok [("AB".toList, "Cat2".toList), ("B".toList, "Cat1".toList)]
    ∧ storeInsertedBA.rules.map (fun r => (r.keyword, r.category))
      = [("B".toList, "Cat1".toList), ("AB".toList, "Cat2".toList)]
    ∧ categorize_fallback none ("ab".toList) []
        [("AB".toList, "Cat2".toList), ("B".toList, "Cat1".toList)] = "Cat2".toList
    ∧ ruleLoop [("B".toList, "Cat1".toList), ("AB".toList, "Cat2".toList)]
        (upperL ("ab".toList)) = some ("Cat1".toList)
    ∧ ("Cat1".toList : List Char) ≠ "Cat2".toList := by
  decide

/-- C3 (amended): the rule matcher returns the category of the first
keyword, in the rule mapping's iteration order, that is a substring of the
uppercased description — but that iteration order is the keyword-ascending
order `list_rules` produces, not the store's insertion order.  Matching is
case-insensitive substring containment (`UBER` matches `Uber Eats` and
`MY UBER RIDE`), and the matcher returns no category when no keyword is
contained.  `list_rules` returns exactly the profile's rules, sorted by
keyword. -/
theorem C3_amended :
    (∀ (rules : List (List Char × List Char)) (desc : List Char),
      ruleLoop rules (upperL desc)
        = (rules.find? (fun kv => containsSub (upperL desc) kv.1)).map Prod.snd)
    ∧ (∀ (rules : List (List Char × List Char)) (desc : List Char),
        (∀ kv ∈ rules, containsSub (upperL desc) kv.1 = false) →
        ruleLoop rules (upperL desc) = none)
    ∧ (containsSub (upperL ("Uber Eats".toList)) ("UBER".toList) = true
       ∧ containsSub (upperL ("MY UBER RIDE".toList)) ("UBER".toList) = true)
    ∧ (∀ (s : Store) (p : List Char) (rs : List (List Char × List Char)),
        list_rules s p = .ok rs →
        rs.Pairwise (fun a b => keyLe a.1 b.1 = true)
        ∧ List.Perm rs
            ((s.rules.filter (fun r => profMatches r.profile p)).map
              (fun r => (r.keyword, r.category)))) := by
  refine ⟨?_, ?_, by decide, ?_⟩
  · intro rules desc
    exact ruleLoop_eq_find rules (upperL desc)
  · intro rules desc h
    rw [ruleLoop_eq_find, Option.map_eq_none']
    rw [List.find?_eq_none]
    intro kv hkv
    simp [h kv hkv]
  · intro s p rs h
    rw [list_rules] at h
    by_cases hp : profile_exists s p = true
    · rw [if_pos hp] at h
      injection h with h
      subst h
      constructor
      · rw [List.pairwise_map]
        exact pairwise_sortByKey (fun r : StoreRule => r.keyword) _
      · exact (sortByKey_perm (fun r : StoreRule => r.keyword) _).map _
    · rw [if_neg hp] at h
      cases h

/-- C3 (witness): the amended matcher characterization applied to a
concrete mapping and description with no containment. -/
theorem C3_witness :
    ruleLoop [("UBER".toList, "Transport".toList)] (upperL ("coffee".toList)) = none :=
  C3_amended.2.1 [("UBER".toList, "Transport".toList)] ("coffee".toList) (by decide)

/-! ## C4: classifier fallback parsing and error handling -/

/-- C4 (counterexample): the claim says the fallback returns exactly
`Uncategorized` when the external call raises.  But a raised call is
replaced by the literal string `Uncategorized`, which is then parsed like
a response: the configured category `Cat`, a case-insensitive substring of
`Uncategorized`, is returned instead.  Also, the first line is taken from
the *stripped* response: a response starting with a newline still
matches. -/
theorem C4_counterexample :
    categorize_fallback none ("SOMETHING".toList) [("Cat".toList, 0)] [] = "Cat".toList
    ∧ ("Cat".toList : List Char) ≠ "Uncategorized".toList
    ∧ categorize_fallback (some ("\nFood".toList)) ("S".toList) [("Food".toList, 0)] []
        = "Food".toList := by
  decide

/-- C4 (amended): with no matching rule, the fallback takes the first line
of the *stripped* response and returns the first configured category name
appearing in it case-insensitively; when the call raises, the response is
taken to be the literal string `Uncategorized` and parsed identically (so
a category whose name occurs in `Uncategorized` is returned in the error
case); when no category name appears in that line the result is exactly
`Uncategorized`.  Errors never propagate: the result is always a plain
string. -/
theorem C4_amended :
    (∀ (resp desc : List Char) (cats : List (List Char × ℚ)),
      categorize_fallback (some resp) desc cats [] = parseFirst resp cats)
    ∧ (∀ (desc : List Char) (cats : List (List Char × ℚ)),
        categorize_fallback none desc cats [] = parseFirst ("Uncategorized".toList) cats)
    ∧ (∀ (resp desc : List Char) (cats : List (List Char × ℚ)),
        (∀ c ∈ cats, containsSub (lowerL (firstLineOf (stripL resp))) (lowerL c.1) = false) →
        categorize_fallback (some resp) desc cats [] = "Uncategorized".toList) := by
  refine ⟨?_, ?_, ?_⟩
  · intro resp desc cats
    rw [categorize_fallback, parseFirst]
    show (match catLoop cats (lowerL (firstLineOf (stripL resp))) with
      | some name => name
      | none => "Uncategorized".toList) = _
    rw [catLoop_eq_find]
    cases cats.find? (fun c => containsSub (lowerL (firstLineOf (stripL resp))) (lowerL c.1)) with
    | none => rfl
    | some c => rfl
  · intro desc cats
    rw [categorize_fallback, parseFirst]
    show (match catLoop cats (lowerL (firstLineOf (stripL ("Uncategorized".toList)))) with
      | some name => name
      | none => "Uncategorized".toList) = _
    rw [catLoop_eq_find]
    cases cats.find? (fun c =>
        containsSub (lowerL (firstLineOf (stripL ("Uncategorized".toList)))) (lowerL c.1)) with
    | none => rfl
    | some c => rfl
  · intro resp desc cats h
    rw [categorize_fallback]
    show (match catLoop cats (lowerL (firstLineOf (stripL resp))) with
      | some name => name
      | none => "Uncategorized".toList) = _
    rw [catLoop_eq_find]
    rw [List.find?_eq_none.mpr (by intro c hc; simp [h c hc])]
    rfl

/-- C4 (witness): the amended no-match case applied to a concrete response
and category list. -/
theorem C4_witness :
    categorize_fallback (some ("zzz".toList)) ("D".toList) [("Food".toList, (0 : ℚ))] []
      = "Uncategorized".toList :=
  C4_amended.2.2 ("zzz".toList) ("D".toList) [("Food".toList, (0 : ℚ))] (by decide)

/-! ## C5: fatal preconditions of process_transactions -/

/-- C5: for every input file and profile (and every classifier oracle, so
before any row-level work), `process_transactions` fails with
`NotFoundError` when the profile does not exist, and with the schema
`ValueError` when the `Description`/`Debit` columns are absent; the error
return means the output CSV (the `ok` payload) is never produced. -/
theorem C5_preconditions :
    (∀ (gpts : Nat → Option (List Char)) (store : Store) (file : CsvFile)
      (profile : List Char),
      profile_exists store profile = false →
      process_transactions gpts store file profile = .error .notFound)
    ∧ (∀ (gpts : Nat → Option (List Char)) (store : Store) (file : CsvFile)
        (profile : List Char),
        profile_exists store profile = true →
        ¬("Description".toList ∈ file.cols ∧ "Debit".toList ∈ file.cols) →
        process_transactions gpts store file profile = .error .valueError) := by
  constructor
  · intro gpts store file profile h
    rw [process_transactions, if_neg (by simp [h])]
  · intro gpts store file profile hp hcols
    rw [process_transactions, if_pos hp, clean_citi_csv, get_profile_settings, if_pos hp]
    rw [if_neg hcols]

/-- C5 (witness): both preconditions at concrete inputs: a missing profile,
and an existing profile with an input file lacking the amount column. -/
theorem C5_witness :
    process_transactions (fun _ => none) (⟨[], [], []⟩ : Store) (⟨[], []⟩ : CsvFile)
      ("missing".toList) = .error .notFound
    ∧ process_transactions (fun _ => none) storeJustDefault
        (⟨["Description".toList], []⟩ : CsvFile) ("default".toList) = .error .valueError :=
  ⟨C5_preconditions.1 (fun _ => none) ⟨[], [], []⟩ ⟨[], []⟩ ("missing".toList) (by decide),
   C5_preconditions.2 (fun _ => none) storeJustDefault ⟨["Description".toList], []⟩
     ("default".toList) (by decide) (by decide)⟩

/-! ## C6: the row cleaner's amount handling -/

/-- C6: with the required columns present, the cleaner keeps exactly the
negative-parsed rows (amount set to the absolute value, i.e. the negation)
when any parsed amount is negative, and otherwise keeps exactly the rows
that parsed, with the amount unchanged. -/
theorem C6_amount_selection :
    ∀ (store : Store) (file : CsvFile) (profile : List Char),
    profile_exists store profile = true →
    ("Description".toList ∈ file.cols ∧ "Debit".toList ∈ file.cols) →
    (file.rows.any isNegRow = true →
      clean_citi_csv store file profile
        = .ok ((file.rows.filter isNegRow).map
            (fun r => ⟨clean_description r.descCell, -(r.amountCell.getD 0)⟩)))
    ∧ (file.rows.any isNegRow = false →
        clean_citi_csv store file profile
          = .ok ((file.rows.filter (fun r => r.amountCell.isSome)).map
              (fun r => ⟨clean_description r.descCell, r.amountCell.getD 0⟩))) := by
  intro store file profile hp hcols
  rw [clean_citi_csv, get_profile_settings, if_pos hp, if_pos hcols]
  constructor
  · intro hneg
    rw [hneg]
    show Except.ok (List.map _ (if true = true then _ else _)) = _
    rw [if_pos rfl]
    congr 1
    apply List.map_congr_left
    intro r hr
    have hmem := List.of_mem_filter hr
    rw [isNegRow] at hmem
    cases hq : r.amountCell with
    | none => rw [hq] at hmem; cases hmem
    | some q =>
      rw [hq] at hmem
      have hlt : q < 0 := of_decide_eq_true hmem
      simp [hq, abs_of_neg hlt]
  · intro hneg
    rw [hneg]
    show Except.ok (List.map _ (if false = true then _ else _)) = _
    rw [if_neg (by simp)]
    congr 1
    apply List.map_congr_left
    intro r hr
    have hsome := List.of_mem_filter hr
    have hall : isNegRow r = false := by
      have := List.any_eq_false.mp hneg r (List.mem_of_mem_filter hr)
      simpa using this
    rw [isNegRow] at hall
    cases hq : r.amountCell with
    | none => rw [hq] at hsome; cases hsome
    | some q =>
      rw [hq] at hall
      have hge : 0 ≤ q := by
        rcases lt_or_le q 0 with h | h
        · simp [h] at hall
        · exact h
      simp [hq, abs_of_nonneg hge]

/-- C6 (witness): the negative-branch characterization applied to the
scenario file: both rows are kept, sign-flipped. -/
theorem C6_witness :
    clean_citi_csv storeScenario fileScenario ("default".toList)
      = .ok ((fileScenario.rows.filter isNegRow).map
          (fun r => ⟨clean_description r.descCell, -(r.amountCell.getD 0)⟩)) :=
  (C6_amount_selection storeScenario fileScenario ("default".toList)
    (by decide) (by decide)).1 (by decide)

/-! ## C7: the unhandled ValueError that aborts a batch -/

/-- C7 (code bug): the claim — only the two fatal preconditions may
surface, and nothing in the categorization path aborts a
partially-successful batch — is violated by the code.  A row whose
description cell is null cleans to the empty string; when it then resolves
to `Uncategorized`, the gap upsert calls `upsert_rule` with the empty
keyword, which raises `ValueError`; `assign_categories_to_dataframe`
catches only `NotFoundError`, so the whole batch aborts mid-run. -/
theorem C7_bug_eval :
    process_transactions (fun _ => none) storeJustDefault fileNullDesc ("default".toList)
      = .error .valueError
    ∧ clean_citi_csv storeJustDefault fileNullDesc ("default".toList) = .ok [⟨[], 5⟩]
    ∧ categorize_fallback none [] [] [] = "Uncategorized".toList
    ∧ upsert_rule storeJustDefault ("default".toList) (upperL []) ("NEEDS CATEGORY".toList)
      = .error .valueError := by
  decide

/-! ## C9: the worked two-row scenario -/

/-- C9 (counterexample): the scenario's expected cleaned description is
wrong on the code: cleaning `AMZN MKTP US*XXXX1234` removes the `XXXX` run
and the digits but keeps the asterisk, giving `AMZN MKTP US*`, not
`AMZN MKTP US`. -/
theorem C9_counterexample :
    clean_description (some ("AMZN MKTP US*XXXX1234".toList)) = "AMZN MKTP US*".toList
    ∧ ("AMZN MKTP US*".toList : List Char) ≠ "AMZN MKTP US".toList := by
  decide

/-- C9 (amended): the scenario with the cleaned description corrected to
`AMZN MKTP US*`: amounts become `42.50` and `1900.00`, the first row is
categorized `Shopping` by the `AMZN` rule, the second `Rent` by the
classifier (oracle answers `Rent` for row 1), and the store is returned
unchanged — no new rule is added. -/
theorem C9_amended :
    clean_citi_csv storeScenario fileScenario ("default".toList)
      = .ok [⟨"AMZN MKTP US*".toList, mkRat 85 2⟩, ⟨"RENT PAYMENT".toList, 1900⟩]
    ∧ process_transactions (fun i => if i = 1 then some ("Rent".toList) else some ("junk".toList))
        storeScenario fileScenario ("default".toList)
      = .ok ([("AMZN MKTP US*".toList, mkRat 85 2, "Shopping".toList),
              ("RENT PAYMENT".toList, 1900, "Rent".toList)], storeScenario) := by
  decide

/-! ## C1: one output row per input row, in order -/

theorem assignStep_ok_out {profile : List Char} {categories : List (List Char × ℚ)}
    {st st2 : RunState} {row : List Char × Option (List Char)}
    (h : assignStep profile categories st row = .ok st2) :
    st2.out = st.out ++ [categorize_fallback row.2 row.1 categories st.rules] := by
  rw [assignStep] at h
  by_cases hc : categorize_fallback row.2 row.1 categories st.rules = "Uncategorized".toList
  · rw [if_pos hc] at h
    cases hu : upsert_rule st.store profile (upperL row.1) ("NEEDS CATEGORY".toList) with
    | ok store2 =>
      rw [hu] at h
      injection h with h
      rw [← h, hc]
    | error e =>
      rw [hu] at h
      cases e with
      | notFound => injection h with h; rw [← h, hc]
      | valueError => cases h
  · rw [if_neg hc] at h
    injection h with h
    rw [← h]

theorem runRows_ok_length {profile : List Char} {categories : List (List Char × ℚ)} :
    ∀ (rows : List (List Char × Option (List Char))) (st st2 : RunState),
    runRows profile categories st rows = .ok st2 →
    st2.out.length = st.out.length + rows.length := by
  intro rows
  induction rows with
  | nil =>
    intro st st2 h
    injection h with h
    rw [h]
    simp
  | cons row rest ih =>
    intro st st2 h
    rw [runRows] at h
    cases hs : assignStep profile categories st row with
    | ok stm =>
      rw [hs] at h
      have h1 := ih stm st2 h
      have h2 := assignStep_ok_out hs
      rw [h1, h2]
      simp
      omega
    | error e => rw [hs] at h; cases h

/-- C1 (counterexample): the loop does not always emit one categorized row
per cleaned input row: a single row with empty cleaned description that
resolves to `Uncategorized` makes the gap upsert raise `ValueError`, the
run aborts, and no categorized row is emitted at all. -/
theorem C1_counterexample :
    assign_categories_to_dataframe (fun _ => none) [⟨[], 1⟩] ("default".toList)
      storeJustDefault = .error .valueError := by
  decide

/-- C1 (amended): whenever the categorization loop completes (which it
does unless a row with empty cleaned description resolves to
`Uncategorized`, aborting with `ValueError`), it emits exactly one
categorized row per cleaned input row, preserving the cleaned input's
order: output row `i` carries input row `i`'s description and amount
(and a category string produced by the loop, `Uncategorized` in the worst
case). -/
theorem C1_amended :
    ∀ (gpts : Nat → Option (List Char)) (df : List CleanRow) (profile : List Char)
      (store : Store) (out : List (List Char × ℚ × List Char)) (store2 : Store),
    assign_categories_to_dataframe gpts df profile store = .ok (out, store2) →
    out.length = df.length
    ∧ ∀ (i : Nat) (h1 : i < out.length) (h2 : i < df.length),
        (out.get ⟨i, h1⟩).1 = (df.get ⟨i, h2⟩).description
        ∧ (out.get ⟨i, h1⟩).2.1 = (df.get ⟨i, h2⟩).amount := by
  intro gpts df profile store out store2 h
  rw [assign_categories_to_dataframe] at h
  cases hr : runRows profile (get_category_tuples store profile)
      ⟨store, load_category_rules store profile, []⟩
      (df.enum.map (fun p => (p.2.description, gpts p.1))) with
  | error e => rw [hr] at h; cases h
  | ok st =>
    rw [hr] at h
    injection h with h
    injection h with h1 h2
    subst h1
    subst h2
    have hL : st.out.length = df.length := by
      have h0 := runRows_ok_length _ _ _ hr
      simpa [List.enum_length] using h0
    refine ⟨by simp [List.length_zip, hL], ?_⟩
    intro i hi1 hi2
    constructor
    · simp [List.get_eq_getElem, List.getElem_map, List.getElem_zip]
    · simp [List.get_eq_getElem, List.getElem_map, List.getElem_zip]

/-- C1 (witness): the amended statement applied to a concrete one-row run
that completes: the output has exactly as many rows as the input. -/
theorem C1_witness :
    ([("x".toList, (1 : ℚ), "C".toList)] : List (List Char × ℚ × List Char)).length
      = ([⟨"x".toList, (1 : ℚ)⟩] : List CleanRow).length :=
  (C1_amended (fun _ => none) [⟨"x".toList, (1 : ℚ)⟩] ("default".toList) storeRuleX
    [("x".toList, (1 : ℚ), "C".toList)] storeRuleX (by decide)).1

/-! ## C10: visibility of discovered gaps inside one run -/

theorem dictInsert_mem_self (d : List (List Char × List Char)) (k v : List Char) :
    (k, v) ∈ dictInsert d k v := by
  rw [dictInsert]
  by_cases h : d.any (fun kv => kv.1 = k) = true
  · rw [if_pos h]
    rcases List.any_eq_true.mp h with ⟨kv, hmem, hk⟩
    have hk2 : kv.1 = k := of_decide_eq_true hk
    refine List.mem_map.mpr ⟨kv, hmem, ?_⟩
    rw [if_pos hk2]
  · rw [if_neg h]
    simp

theorem dictInsert_mem_preserve {d : List (List Char × List Char)} {K V k v : List Char}
    (hmem : (K, V) ∈ d) (himp : K = k → V = v) : (K, V) ∈ dictInsert d k v := by
  rw [dictInsert]
  by_cases h : d.any (fun kv => kv.1 = k) = true
  · rw [if_pos h]
    refine List.mem_map.mpr ⟨(K, V), hmem, ?_⟩
    by_cases hK : K = k
    · rw [if_pos hK, hK, himp hK]
    · rw [if_neg hK]
  · rw [if_neg h]
    exact List.mem_append.mpr (Or.inl hmem)

/-- C10 (counterexample): a later row containing an earlier-discovered gap
keyword is not necessarily categorized `NEEDS CATEGORY`: with initial rule
`A -> Food` and category list `[Food]`, row 0 (`qqq`) discovers the gap
`QQQ`, but row 1 (`qqqa`), whose uppercase contains `QQQ`, matches the
earlier rule `A` first and is categorized `Food`. -/
theorem C10_counterexample :
    assign_categories_to_dataframe (fun _ => some ("junk".toList))
      [⟨"qqq".toList, 1⟩, ⟨"qqqa".toList, 2⟩] ("default".toList) storeGapDemo
      = .ok ([("qqq".toList, 1, "Uncategorized".toList), ("qqqa".toList, 2, "Food".toList)],
          ⟨["default".toList],
           [⟨"default".toList, "Food".toList, 0⟩],
           [⟨"default".toList, "A".toList, "Food".toList⟩,
            ⟨"default".toList, "QQQ".toList, "NEEDS CATEGORY".toList⟩]⟩)
    ∧ containsSub (upperL ("qqqa".toList)) ("QQQ".toList) = true
    ∧ ("Food".toList : List Char) ≠ "NEEDS CATEGORY".toList := by
  decide

/-- C10 (amended): a discovered gap is recorded in the in-memory snapshot
(and any loop step preserves such a binding), and a later row is
categorized `NEEDS CATEGORY` without invoking the classifier and without
touching the snapshot or the store *when the gap rule is the first match
in the snapshot's iteration order* — a later row whose description also
contains an earlier-iterating rule's keyword takes that rule's category
instead. -/
theorem C10_amended :
    (∀ (profile : List Char) (cats : List (List Char × ℚ)) (st : RunState)
      (desc : List Char) (gpt : Option (List Char)) (st2 : RunState),
      categorize_fallback gpt desc cats st.rules = "Uncategorized".toList →
      assignStep profile cats st (desc, gpt) = .ok st2 →
      (upperL desc, "NEEDS CATEGORY".toList) ∈ st2.rules)
    ∧ (∀ (profile : List Char) (cats : List (List Char × ℚ)) (st : RunState)
        (row : List Char × Option (List Char)) (st2 : RunState) (K : List Char),
        (K, "NEEDS CATEGORY".toList) ∈ st.rules →
        assignStep profile cats st row = .ok st2 →
        (K, "NEEDS CATEGORY".toList) ∈ st2.rules)
    ∧ (∀ (profile : List Char) (cats : List (List Char × ℚ)) (st : RunState)
        (desc : List Char) (gpt : Option (List Char)),
        ruleLoop st.rules (upperL desc) = some ("NEEDS CATEGORY".toList) →
        assignStep profile cats st (desc, gpt)
          = .ok ⟨st.store, st.rules, st.out ++ ["NEEDS CATEGORY".toList]⟩) := by
  refine ⟨?_, ?_, ?_⟩
  · intro profile cats st desc gpt st2 hcat h
    simp only [assignStep] at h
    rw [if_pos hcat] at h
    cases hu : upsert_rule st.store profile (upperL desc) ("NEEDS CATEGORY".toList) with
    | ok store2 =>
      rw [hu] at h
      injection h with h
      rw [← h]
      exact dictInsert_mem_self _ _ _
    | error e =>
      rw [hu] at h
      cases e with
      | notFound =>
        injection h with h
        rw [← h]
        exact dictInsert_mem_self _ _ _
      | valueError => cases h
  · intro profile cats st row st2 K hK h
    simp only [assignStep] at h
    by_cases hc : categorize_fallback row.2 row.1 cats st.rules = "Uncategorized".toList
    · rw [if_pos hc] at h
      cases hu : upsert_rule st.store profile (upperL row.1) ("NEEDS CATEGORY".toList) with
      | ok store2 =>
        rw [hu] at h
        injection h with h
        rw [← h]
        exact dictInsert_mem_preserve hK (fun _ => rfl)
      | error e =>
        rw [hu] at h
        cases e with
        | notFound =>
          injection h with h
          rw [← h]
          exact dictInsert_mem_preserve hK (fun _ => rfl)
        | valueError => cases h
    · rw [if_neg hc] at h
      injection h with h
      rw [← h]
      exact hK
  · intro profile cats st desc gpt hrule
    have hcat : categorize_fallback gpt desc cats st.rules = "NEEDS CATEGORY".toList := by
      rw [categorize_fallback, hrule]
    simp only [assignStep, hcat]
    rw [if_neg (by decide)]

/-- C10 (witness): the first-match case applied concretely: a snapshot
holding the gap `Q -> NEEDS CATEGORY` categorizes the later row `q`
without changing any state, for an erroring classifier oracle. -/
theorem C10_witness :
    assignStep ("default".toList) []
      ⟨storeJustDefault, [("Q".toList, "NEEDS CATEGORY".toList)], []⟩ ("q".toList, none)
      = .ok ⟨storeJustDefault, [("Q".toList, "NEEDS CATEGORY".toList)],
          ["NEEDS CATEGORY".toList]⟩ :=
  C10_amended.2.2 ("default".toList) []
    ⟨storeJustDefault, [("Q".toList, "NEEDS CATEGORY".toList)], []⟩ ("q".toList) none
    (by decide)

/-! ## C2: the gap upsert -/

theorem char_toNat_ofNat {n : Nat} (h : n.isValidChar) : (Char.ofNat n).toNat = n := by
  rw [Char.ofNat, dif_pos h]
  rfl

theorem char_toUpper_toNat (c : Char) :
    c.toUpper.toNat = if 97 ≤ c.toNat ∧ c.toNat ≤ 122 then c.toNat - 32 else c.toNat := by
  rw [Char.toUpper]
  split
  case isTrue h => exact char_toNat_ofNat (Or.inl (by omega))
  case isFalse h => rfl

theorem char_toNat_inj {c d : Char} (h : c.toNat = d.toNat) : c = d :=
  Char.eq_of_val_eq (UInt32.toNat.inj h)

theorem toUpper_idem (c : Char) : c.toUpper.toUpper = c.toUpper := by
  apply char_toNat_inj
  rw [char_toUpper_toNat c.toUpper, char_toUpper_toNat c]
  by_cases hP : 97 ≤ c.toNat ∧ c.toNat ≤ 122
  · rw [if_pos hP, if_neg (by omega)]
  · rw [if_neg hP, if_neg hP]

theorem isPySpace_toUpper (c : Char) : isPySpace c.toUpper = isPySpace c := by
  rw [Bool.eq_iff_iff]
  simp only [isPySpace, decide_eq_true_eq]
  rw [char_toUpper_toNat]
  by_cases hP : 97 ≤ c.toNat ∧ c.toNat ≤ 122
  · rw [if_pos hP]; omega
  · rw [if_neg hP]

theorem upperL_idem (l : List Char) : upperL (upperL l) = upperL l := by
  simp only [upperL, List.map_map]
  exact List.map_congr_left (fun c _ => toUpper_idem c)

theorem dropWhile_space_upperL (l : List Char) :
    List.dropWhile isPySpace (upperL l) = upperL (List.dropWhile isPySpace l) := by
  simp only [upperL, List.dropWhile_map]
  rw [show (isPySpace ∘ Char.toUpper) = isPySpace from funext isPySpace_toUpper]

theorem stripL_upperL (l : List Char) : stripL (upperL l) = upperL (stripL l) := by
  rw [stripL, stripL, dropWhile_space_upperL, upperL, ← List.map_reverse]
  rw [show List.map Char.toUpper (List.dropWhile isPySpace l).reverse
      = upperL (List.dropWhile isPySpace l).reverse from rfl]
  rw [dropWhile_space_upperL, upperL, ← List.map_reverse]
  rfl

theorem ruleFor_update (p kw cat : List Char) (r : StoreRule) :
    ruleFor p kw { r with category := cat } = ruleFor p kw r := rfl

/-- The behavior of the store's upsert on an already-normalized nonempty
keyword when the profile exists and the store holds at most one matching
rule: it succeeds, leaves exactly one matching rule, that rule's category
is the new one, and the row count grows only when no rule matched. -/
theorem upsert_rule_normalized (s : Store) (p kw : List Char)
    (hfix : upperL (stripL kw) = kw) (hne : kw ≠ [])
    (hprof : profile_exists s p = true)
    (hcount : s.rules.countP (ruleFor p kw) ≤ 1) :
    ∃ s2, upsert_rule s p kw ("NEEDS CATEGORY".toList) = .ok s2
      ∧ s2.rules.countP (ruleFor p kw) = 1
      ∧ (∀ r ∈ s2.rules, ruleFor p kw r = true → r.category = "NEEDS CATEGORY".toList)
      ∧ (s.rules.any (ruleFor p kw) = true → s2.rules.length = s.rules.length)
      ∧ (s.rules.any (ruleFor p kw) = false → s2.rules.length = s.rules.length + 1) := by
  have hcat : normCategory ("NEEDS CATEGORY".toList) = "NEEDS CATEGORY".toList := by decide
  rw [upsert_rule, hfix, if_neg hne, if_pos hprof]
  by_cases hany : s.rules.any (ruleFor p kw) = true
  · rw [if_pos hany]
    have hpres : ∀ r : StoreRule,
        ruleFor p kw (if ruleFor p kw r
          then { r with category := normCategory ("NEEDS CATEGORY".toList) } else r)
          = ruleFor p kw r := by
      intro r
      by_cases hr : ruleFor p kw r = true
      · rw [if_pos hr, ruleFor_update]
      · rw [if_neg hr]
    refine ⟨_, rfl, ?_, ?_, fun _ => by simp, fun hfalse => by rw [hfalse] at hany; cases hany⟩
    · have h1 : (s.rules.map (fun r =>
          if ruleFor p kw r
          then { r with category := normCategory ("NEEDS CATEGORY".toList) } else r)).countP
            (ruleFor p kw) = s.rules.countP (ruleFor p kw) := by
        rw [List.countP_map]
        exact List.countP_congr (fun r _ => by rw [Function.comp_apply, hpres r])
      rw [h1]
      rcases List.any_eq_true.mp hany with ⟨r, hr, hr2⟩
      have : 0 < s.rules.countP (ruleFor p kw) :=
        List.countP_pos_iff.mpr ⟨r, hr, hr2⟩
      omega
    · intro r hr hmatch
      rcases List.mem_map.mp hr with ⟨x, hx, rfl⟩
      by_cases hx2 : ruleFor p kw x = true
      · rw [if_pos hx2, hcat]
      · rw [if_neg hx2] at hmatch ⊢
        exact absurd hmatch hx2
  · rw [if_neg hany]
    have hzero : s.rules.countP (ruleFor p kw) = 0 := by
      rw [List.countP_eq_zero]
      intro r hr
      have := List.any_eq_false.mp (Bool.not_eq_true _ ▸ hany) r hr
      simpa using this
    have hnew : ruleFor p kw ⟨p, kw, normCategory ("NEEDS CATEGORY".toList)⟩ = true := by
      simp [ruleFor, profMatches]
    refine ⟨_, rfl, ?_, ?_, fun htrue => absurd htrue hany, fun _ => by simp⟩
    · rw [List.countP_append, hzero, List.countP_cons, hnew]
      rfl
    · intro r hr hmatch
      rcases List.mem_append.mp hr with hr | hr
      · have := List.countP_eq_zero.mp hzero r hr
        exact absurd hmatch this
      · rcases List.mem_singleton.mp hr with rfl
        exact hcat

/-- C2 (counterexample): a row whose (cleaned) description is empty can
resolve via the classifier fallback to exactly `Uncategorized`, yet no
rule is upserted into the persistent store: the store-side keyword
normalization rejects the empty keyword with `ValueError`, which the loop
does not catch, so the step errors instead of upserting. -/
theorem C2_counterexample :
    categorize_fallback none [] [] [] = "Uncategorized".toList
    ∧ assignStep ("default".toList) [] ⟨storeJustDefault, [], []⟩ ([], none)
        = .error .valueError
    ∧ upsert_rule storeJustDefault ("default".toList) (upperL [])
        ("NEEDS CATEGORY".toList) = .error .valueError := by
  decide

/-- C2 (amended): for every loop row with *nonempty* (stripped, as cleaned
descriptions are) description whose category resolves to `Uncategorized`,
when the profile exists and the store holds at most one rule for the
keyword: the step succeeds, records `description.upper() -> NEEDS
CATEGORY` in the in-memory snapshot, and immediately upserts it into the
store, which afterwards holds exactly one rule for that keyword, with
category `NEEDS CATEGORY`; upserting the same keyword a second time
succeeds without creating a duplicate (same row count, still exactly one
matching rule). -/
theorem C2_amended :
    ∀ (profile : List Char) (cats : List (List Char × ℚ)) (st : RunState)
      (desc : List Char) (gpt : Option (List Char)),
    categorize_fallback gpt desc cats st.rules = "Uncategorized".toList →
    desc ≠ [] →
    stripL desc = desc →
    profile_exists st.store profile = true →
    st.store.rules.countP (ruleFor profile (upperL desc)) ≤ 1 →
    ∃ store2,
      assignStep profile cats st (desc, gpt)
        = .ok ⟨store2, dictInsert st.rules (upperL desc) ("NEEDS CATEGORY".toList),
            st.out ++ ["Uncategorized".toList]⟩
      ∧ (upperL desc, "NEEDS CATEGORY".toList)
          ∈ dictInsert st.rules (upperL desc) ("NEEDS CATEGORY".toList)
      ∧ store2.rules.countP (ruleFor profile (upperL desc)) = 1
      ∧ (∀ r ∈ store2.rules, ruleFor profile (upperL desc) r = true →
          r.category = "NEEDS CATEGORY".toList)
      ∧ ∃ store3,
          upsert_rule store2 profile (upperL desc) ("NEEDS CATEGORY".toList) = .ok store3
          ∧ store3.rules.length = store2.rules.length
          ∧ store3.rules.countP (ruleFor profile (upperL desc)) = 1 := by
  intro profile cats st desc gpt hcat hne hstrip hprof hcount
  have hfix : upperL (stripL (upperL desc)) = upperL desc := by
    rw [stripL_upperL, hstrip, upperL_idem]
  have hkw_ne : upperL desc ≠ [] := by
    intro hc
    exact hne (by simpa [upperL] using hc)
  rcases upsert_rule_normalized st.store profile (upperL desc) hfix hkw_ne hprof hcount
    with ⟨store2, hup, hcount2, hcats2, _, _⟩
  refine ⟨store2, ?_, dictInsert_mem_self _ _ _, hcount2, hcats2, ?_⟩
  · simp only [assignStep]
    rw [if_pos hcat, hup, hcat]
  · have hprof2 : profile_exists store2 profile = true := by
      rw [upsert_rule, hfix, if_neg hkw_ne, if_pos hprof] at hup
      by_cases hany : st.store.rules.any (ruleFor profile (upperL desc)) = true
      · rw [if_pos hany] at hup
        injection hup with hup
        rw [← hup]
        exact hprof
      · rw [if_neg hany] at hup
        injection hup with hup
        rw [← hup]
        exact hprof
    rcases upsert_rule_normalized store2 profile (upperL desc) hfix hkw_ne hprof2
      (by omega) with ⟨store3, hup3, hcount3, _, hlen3, _⟩
    have hany2 : store2.rules.any (ruleFor profile (upperL desc)) = true := by
      rw [List.any_eq_true]
      have : 0 < store2.rules.countP (ruleFor profile (upperL desc)) := by omega
      rcases List.countP_pos_iff.mp this with ⟨r, hr, hr2⟩
      exact ⟨r, hr, hr2⟩
    exact ⟨store3, hup3, hlen3 hany2, hcount3⟩

/-- C2 (witness): the amended statement applied to a one-rule-free store
and the concrete description `FOO` with an erroring classifier. -/
theorem C2_witness :
    ∃ store2,
      assignStep ("default".toList) [] ⟨storeJustDefault, [], []⟩ ("FOO".toList, none)
        = .ok ⟨store2, dictInsert [] (upperL ("FOO".toList)) ("NEEDS CATEGORY".toList),
            [] ++ ["Uncategorized".toList]⟩
      ∧ (upperL ("FOO".toList), "NEEDS CATEGORY".toList)
          ∈ dictInsert [] (upperL ("FOO".toList)) ("NEEDS CATEGORY".toList)
      ∧ store2.rules.countP (ruleFor ("default".toList) (upperL ("FOO".toList))) = 1
      ∧ (∀ r ∈ store2.rules, ruleFor ("default".toList) (upperL ("FOO".toList)) r = true →
          r.category = "NEEDS CATEGORY".toList)
      ∧ ∃ store3,
          upsert_rule store2 ("default".toList) (upperL ("FOO".toList))
            ("NEEDS CATEGORY".toList) = .ok store3
          ∧ store3.rules.length = store2.rules.length
          ∧ store3.rules.countP (ruleFor ("default".toList) (upperL ("FOO".toList))) = 1 :=
  C2_amended ("default".toList) [] ⟨storeJustDefault, [], []⟩ ("FOO".toList) none
    (by decide) (by decide) (by decide) (by decide) (by decide)

/-! ## C8: idempotence of description cleaning -/

theorem mem_collapseAux : ∀ (b : Bool) (l : List Char) (c : Char),
    c ∈ collapseAux b l → c = ' ' ∨ c ∈ l := by
  intro b l
  induction l generalizing b with
  | nil => intro c h; cases h
  | cons d rest ih =>
    intro c h
    rw [collapseAux] at h
    by_cases hd : isPySpace d = true
    · rw [if_pos hd] at h
      cases b with
      | true =>
        rw [if_pos rfl] at h
        rcases ih true c h with h | h
        · exact Or.inl h
        · exact Or.inr (List.mem_cons_of_mem d h)
      | false =>
        rw [if_neg (by decide)] at h
        rcases List.mem_cons.mp h with rfl | h
        · exact Or.inl rfl
        · rcases ih true c h with h | h
          · exact Or.inl h
          · exact Or.inr (List.mem_cons_of_mem d h)
    · rw [if_neg hd] at h
      rcases List.mem_cons.mp h with rfl | h
      · exact Or.inr (List.mem_cons_self _ _)
      · rcases ih false c h with h | h
        · exact Or.inl h
        · exact Or.inr (List.mem_cons_of_mem d h)

theorem collapseAux_ws_space : ∀ (b : Bool) (l : List Char) (c : Char),
    c ∈ collapseAux b l → isPySpace c = true → c = ' ' := by
  intro b l
  induction l generalizing b with
  | nil => intro c h; cases h
  | cons d rest ih =>
    intro c h hws
    rw [collapseAux] at h
    by_cases hd : isPySpace d = true
    · rw [if_pos hd] at h
      cases b with
      | true =>
        rw [if_pos rfl] at h
        exact ih true c h hws
      | false =>
        rw [if_neg (by decide)] at h
        rcases List.mem_cons.mp h with rfl | h
        · rfl
        · exact ih true c h hws
    · rw [if_neg hd] at h
      rcases List.mem_cons.mp h with rfl | h
      · exact absurd hws (by simp [hd])
      · exact ih false c h hws

theorem collapseAux_true_head : ∀ (l : List Char) (y : Char),
    (collapseAux true l).head? = some y → isPySpace y = false := by
  intro l
  induction l with
  | nil => intro y h; cases h
  | cons d rest ih =>
    intro y h
    rw [collapseAux] at h
    by_cases hd : isPySpace d = true
    · rw [if_pos hd, if_pos rfl] at h
      exact ih y h
    · rw [if_neg hd] at h
      injection h with h
      rw [← h]
      simpa using hd

theorem collapseAux_chain : ∀ (b : Bool) (l : List Char),
    List.Chain' (fun a d => ¬(isPySpace a = true ∧ isPySpace d = true)) (collapseAux b l) := by
  intro b l
  induction l generalizing b with
  | nil => exact List.chain'_nil
  | cons d rest ih =>
    rw [collapseAux]
    by_cases hd : isPySpace d = true
    · rw [if_pos hd]
      cases b with
      | true =>
        rw [if_pos rfl]
        exact ih true
      | false =>
        rw [if_neg (by decide)]
        refine List.chain'_cons'.mpr ⟨?_, ih true⟩
        intro y hy h2
        rw [collapseAux_true_head rest y hy] at h2
        exact absurd h2.2 (by simp)
    · rw [if_neg hd]
      refine List.chain'_cons'.mpr ⟨?_, ih false⟩
      intro y _ h2
      exact absurd h2.1 (by simp [hd])

theorem collapseAux_true_eq_false : ∀ l : List Char,
    (∀ y, l.head? = some y → isPySpace y = false) → collapseAux true l = collapseAux false l := by
  intro l h
  cases l with
  | nil => rfl
  | cons d rest =>
    have hd : isPySpace d = false := h d rfl
    rw [collapseAux, collapseAux, if_neg (by simp [hd]), if_neg (by simp [hd])]

theorem collapse_fix : ∀ l : List Char,
    (∀ c ∈ l, isPySpace c = true → c = ' ') →
    List.Chain' (fun a d => ¬(isPySpace a = true ∧ isPySpace d = true)) l →
    collapseAux false l = l := by
  intro l
  induction l with
  | nil => intro _ _; rfl
  | cons d rest ih =>
    intro hws hch
    by_cases hd : isPySpace d = true
    · have hd2 : d = ' ' := hws d (List.mem_cons_self _ _) hd
      rw [collapseAux, if_pos hd, if_neg (by decide)]
      have hhead : ∀ y, rest.head? = some y → isPySpace y = false := by
        intro y hy
        have hR := List.chain'_cons'.mp hch
        have := hR.1 y hy
        by_cases hyw : isPySpace y = true
        · exact absurd ⟨hd, hyw⟩ this
        · simpa using hyw
      rw [collapseAux_true_eq_false rest hhead, hd2]
      rw [ih (fun c hc hcw => hws c (List.mem_cons_of_mem d hc) hcw)
        (List.chain'_cons'.mp hch).2]
    · rw [collapseAux, if_neg hd]
      rw [ih (fun c hc hcw => hws c (List.mem_cons_of_mem d hc) hcw)
        (List.chain'_cons'.mp hch).2]

theorem replaceNbsp_id : ∀ l : List Char,
    (∀ c ∈ l, isPySpace c = true → c = ' ') → replaceNbsp l = l := by
  intro l h
  rw [replaceNbsp]
  conv_rhs => rw [← List.map_id l]
  apply List.map_congr_left
  intro c hc
  by_cases h160 : c.toNat = 160
  · have hws : isPySpace c = true := by
      rw [isPySpace, decide_eq_true_eq]
      omega
    have hsp := h c hc hws
    rw [hsp] at h160
    cases h160
  · rw [if_neg h160]
    rfl

theorem mem_stripL {l : List Char} {c : Char} (h : c ∈ stripL l) : c ∈ l := by
  rw [stripL] at h
  rw [List.mem_reverse] at h
  have h2 := (List.dropWhile_sublist _).mem h
  rw [List.mem_reverse] at h2
  exact (List.dropWhile_sublist _).mem h2

theorem chain_stripL {l : List Char}
    (h : List.Chain' (fun a d => ¬(isPySpace a = true ∧ isPySpace d = true)) l) :
    List.Chain' (fun a d => ¬(isPySpace a = true ∧ isPySpace d = true)) (stripL l) := by
  rw [stripL]
  have hsymm : ∀ (m : List Char),
      List.Chain' (fun a d => ¬(isPySpace a = true ∧ isPySpace d = true)) m →
      List.Chain' (fun a d => ¬(isPySpace a = true ∧ isPySpace d = true)) m.reverse := by
    intro m hm
    rw [List.chain'_reverse]
    exact hm.imp (fun a d had ⟨x, y⟩ => had ⟨y, x⟩)
  apply hsymm
  apply List.Chain'.suffix _ (List.dropWhile_suffix isPySpace)
  apply hsymm
  exact h.suffix (List.dropWhile_suffix isPySpace)

theorem dropWhile_space_idem (l : List Char) :
    List.dropWhile isPySpace (List.dropWhile isPySpace l) = List.dropWhile isPySpace l := by
  cases h : List.dropWhile isPySpace l with
  | nil => rfl
  | cons c t =>
    have hc : isPySpace c = false := by
      have h2 := List.head?_dropWhile_not isPySpace l
      rw [h] at h2
      simpa using h2
    rw [List.dropWhile_cons, if_neg (by simp [hc])]

theorem front_clean_stripL (l : List Char) :
    List.dropWhile isPySpace (stripL l) = stripL l := by
  have hpre : stripL l <+: List.dropWhile isPySpace l := by
    rw [← List.reverse_suffix, stripL, List.reverse_reverse]
    exact List.dropWhile_suffix isPySpace
  cases ht : stripL l with
  | nil => rfl
  | cons c t =>
    rcases hpre with ⟨r, hr⟩
    rw [ht] at hr
    have hhead : (List.dropWhile isPySpace l).head? = some c := by
      rw [← hr]
      rfl
    have hc : isPySpace c = false := by
      have h2 := List.head?_dropWhile_not isPySpace l
      rw [hhead] at h2
      simpa using h2
    rw [List.dropWhile_cons, if_neg (by simp [hc])]

theorem stripL_idem (l : List Char) : stripL (stripL l) = stripL l := by
  have h1 : List.dropWhile isPySpace (stripL l) = stripL l := front_clean_stripL l
  rw [stripL, h1]
  have h2 : (stripL l).reverse
      = List.dropWhile isPySpace ((List.dropWhile isPySpace l).reverse) := by
    rw [stripL, List.reverse_reverse]
  rw [h2, dropWhile_space_idem, ← h2]
  rw [List.reverse_reverse]

theorem ws_single_strip_collapse (u : List Char) :
    ∀ c ∈ stripL (collapseWs u), isPySpace c = true → c = ' ' := by
  intro c hc hcw
  exact collapseAux_ws_space false u c (mem_stripL hc) hcw

theorem clean_eq_strip (d : List Char) :
    clean_description (some d)
      = stripL (collapseWs (removeDigits (removeNull (removeXRuns d)))) := by
  rw [clean_description]
  exact replaceNbsp_id _ (ws_single_strip_collapse _)

theorem clean_no_digit (s : Option (List Char)) :
    ∀ c ∈ clean_description s, c.isDigit = false := by
  cases s with
  | none => intro c h; cases h
  | some d =>
    intro c h
    rw [clean_eq_strip] at h
    have h2 := mem_stripL h
    rcases mem_collapseAux false _ c h2 with rfl | h3
    · rfl
    · have := List.of_mem_filter h3
      simpa using this

/-- C8 (counterexample): cleaning is not idempotent: removing the digit
from `nu1ll` creates the token `null`, which only a second cleaning pass
removes — `clean(nu1ll) = null` but `clean(null)` is empty. -/
theorem C8_counterexample :
    clean_description (some (clean_description (some ("nu1ll".toList))))
      ≠ clean_description (some ("nu1ll".toList))
    ∧ clean_description (some ("nu1ll".toList)) = "null".toList
    ∧ clean_description (some ("null".toList)) = [] := by
  decide

/-- C8 (amended): cleaning is idempotent on every input (null included)
whose cleaned form is left unchanged by the X-run removal and by the
null-token removal — equivalently, cleaning only fails to be idempotent
when digit/null removal manufactures a new `null` token or a new run of
four or more `X` that a second pass would remove. -/
theorem C8_amended (s : Option (List Char))
    (hX : removeXRuns (clean_description s) = clean_description s)
    (hN : removeNull (clean_description s) = clean_description s) :
    clean_description (some (clean_description s)) = clean_description s := by
  cases s with
  | none => decide
  | some d =>
    have hdig : ∀ c ∈ clean_description (some d), (!c.isDigit) = true := by
      intro c hc
      rw [clean_no_digit (some d) c hc]
      rfl
    have hws : ∀ c ∈ clean_description (some d), isPySpace c = true → c = ' ' := by
      rw [clean_eq_strip]
      exact ws_single_strip_collapse _
    have hch : List.Chain' (fun a d2 => ¬(isPySpace a = true ∧ isPySpace d2 = true))
        (clean_description (some d)) := by
      rw [clean_eq_strip]
      exact chain_stripL (collapseAux_chain false _)
    rw [clean_eq_strip (clean_description (some d)), hX, hN]
    rw [show removeDigits (clean_description (some d)) = clean_description (some d) from
      List.filter_eq_self.mpr hdig]
    rw [show collapseWs (clean_description (some d)) = clean_description (some d) from
      collapse_fix _ hws hch]
    rw [clean_eq_strip d, stripL_idem]

/-- C8 (witness): idempotence at the concrete description `abc`, whose
cleaned form triggers neither removal pass. -/
theorem C8_witness :
    clean_description (some (clean_description (some ("abc".toList))))
      = clean_description (some ("abc".toList)) :=
  C8_amended (some ("abc".toList)) (by decide) (by decide)
